import Mathlib

/-!
Verification development for the `graphite` repository.

Shallow embedding of:
* `src/graphite/nn/models/e3nn_nequip.py` — `tp_path_exists`, the
  `E3NN_NequIP.__init__` layer-assembly logic, and the `z`-selection in
  `E3NN_NequIP.forward`;
* `src/graphite/nn/order.py` — the `steinhardt` order-parameter routine;
* `src/src/graphite/nn/conv/mgn_conv.py` — `EdgeProcessor`, `NodeProcessor`
  and `MeshGraphNetsConv` forward passes.

External numeric collaborators (spherical harmonics, Wigner 3-j tables,
learned MLPs) enter as function parameters; the representation algebra of
`e3nn.o3` (`Irreps`, `simplify`, irrep products) is embedded directly from
its semantics because the repository's logic is written against it.
-/

namespace Graphite

/-- An irreducible-representation label: degree `l ≥ 0` and parity
(`p = true` for even `e`, `p = false` for odd `o`), mirroring `e3nn.o3.Irrep`. -/
structure Irrep where
  l : Nat
  p : Bool
deriving DecidableEq, Repr

/-- A representation set: an ordered list of (multiplicity, irrep) pairs,
mirroring `e3nn.o3.Irreps`. -/
abbrev Irreps := List (Nat × Irrep)

/-- Dimension of a single irrep: `2*l + 1`. -/
def Irrep.dim (ir : Irrep) : Nat := 2 * ir.l + 1

/-- Total dimension of a representation set (`e3nn.o3.Irreps.dim`):
sum of `mul * (2*l+1)` over the entries. -/
def irrepsDim (xs : Irreps) : Nat := (xs.map (fun mi => mi.1 * mi.2.dim)).sum

/-- Accumulator loop of `e3nn.o3.Irreps.simplify`: merge an entry into the
last entry of `out` when the irrep labels coincide, otherwise append it when
its multiplicity is positive, otherwise drop it. -/
def simplifyAux : Irreps → Irreps → Irreps
  | out, [] => out
  | out, (mul, ir) :: rest =>
    match out.getLast? with
    | some mi' =>
      if mi'.2 = ir then simplifyAux (out.dropLast ++ [(mi'.1 + mul, ir)]) rest
      else if 0 < mul then simplifyAux (out ++ [(mul, ir)]) rest
      else simplifyAux out rest
    | none => if 0 < mul then simplifyAux (out ++ [(mul, ir)]) rest else simplifyAux out rest

/-- `e3nn.o3.Irreps.simplify`: merge consecutive duplicate labels, dropping
zero-multiplicity entries. -/
def simplify (xs : Irreps) : Irreps := simplifyAux [] xs

/-- `e3nn.o3.Irrep.__mul__`: the coupling set of two irreps — all degrees
from `|l1 - l2|` to `l1 + l2` with parity `p1 * p2`. -/
def irrepMul (ir1 ir2 : Irrep) : List Irrep :=
  ((List.range (ir1.l + ir2.l + 1)).filter
      (fun l => decide (max ir1.l ir2.l - min ir1.l ir2.l ≤ l))).map
    (fun l => ⟨l, ir1.p == ir2.p⟩)

/-- `tp_path_exists(irreps_in1, irreps_in2, ir_out)` from
`src/graphite/nn/models/e3nn_nequip.py` lines 10–19: simplify both inputs,
then test whether some pair of constituent irreps couples to `ir_out`. -/
def tp_path_exists (irrepsIn1 irrepsIn2 : Irreps) (irOut : Irrep) : Bool :=
  (simplify irrepsIn1).any fun mi1 =>
    (simplify irrepsIn2).any fun mi2 =>
      (irrepMul mi1.2 mi2.2).any fun x => decide (x = irOut)

/-- Membership in the coupling set, characterised arithmetically. -/
lemma mem_irrepMul {ir1 ir2 t : Irrep} :
    t ∈ irrepMul ir1 ir2 ↔
      t.p = (ir1.p == ir2.p) ∧
      max ir1.l ir2.l - min ir1.l ir2.l ≤ t.l ∧ t.l ≤ ir1.l + ir2.l := by
  cases t with
  | mk tl tp =>
    simp only [irrepMul, List.mem_map, List.mem_filter, List.mem_range,
      decide_eq_true_eq]
    constructor
    · rintro ⟨l, ⟨hlt, hge⟩, heq⟩
      cases heq
      exact ⟨rfl, hge, by omega⟩
    · rintro ⟨hp, hge, hle⟩
      exact ⟨tl, ⟨by omega, hge⟩, by cases hp; rfl⟩

/-- `tp_path_exists` as an existential over the simplified inputs. -/
lemma tp_path_exists_eq_true_iff (A B : Irreps) (t : Irrep) :
    tp_path_exists A B t = true ↔
      ∃ mi1 ∈ simplify A, ∃ mi2 ∈ simplify B, t ∈ irrepMul mi1.2 mi2.2 := by
  simp [tp_path_exists, List.any_eq_true]

lemma simplify_nil : simplify ([] : Irreps) = [] := rfl

/-! ## The `E3NN_NequIP.__init__` layer-assembly logic -/

/-- The even scalar label `0e`. -/
def ir0e : Irrep := ⟨0, true⟩

/-- The odd scalar label `0o`. -/
def ir0o : Irrep := ⟨0, false⟩

/-- `irreps_scalars` of a layer (`e3nn_nequip.py` line 81): the degree-0
components of `irreps_hidden` with a coupling path from
(current input representation, edge representation). -/
def scalarsPartition (irrepsHidden irreps irrepsEdge : Irreps) : Irreps :=
  irrepsHidden.filter fun mi =>
    decide (mi.2.l = 0) && tp_path_exists irreps irrepsEdge mi.2

/-- `irreps_gated` of a layer (`e3nn_nequip.py` line 82): the degree>0
components of `irreps_hidden` with a coupling path from
(current input representation, edge representation). -/
def gatedPartition (irrepsHidden irreps irrepsEdge : Irreps) : Irreps :=
  irrepsHidden.filter fun mi =>
    decide (0 < mi.2.l) && tp_path_exists irreps irrepsEdge mi.2

/-- A construction-time configuration error.  `gateParity` carries the
representations named by the `ValueError` message of `e3nn_nequip.py`
line 91 (`irreps`, `irreps_edge`, `irreps_gated`). -/
inductive BuildError where
  | gateParity (irreps irrepsEdge irrepsGated : Irreps)
deriving DecidableEq, Repr

/-- Gate-parity resolution (`e3nn_nequip.py` lines 84–93): when the gated
partition has positive dimension, try a path from (node-attribute
representation, edge representation) to `0e`, then to `0o`, else fail;
when it is zero-dimensional, resolve to no gate irrep (`ir = None`). -/
def resolveGateIr (irrepsNode irrepsEdge irreps irrepsGated : Irreps) :
    Except BuildError (Option Irrep) :=
  if 0 < irrepsDim irrepsGated then
    if tp_path_exists irrepsNode irrepsEdge ir0e then .ok (some ir0e)
    else if tp_path_exists irrepsNode irrepsEdge ir0o then .ok (some ir0o)
    else .error (.gateParity irreps irrepsEdge irrepsGated)
  else .ok none

/-- Modelled from the spec: the gated-nonlinearity builder (`e3nn.nn.Gate`,
an external library consumed through its declared contract, spec §4.4)
declares its required-input representation as the concatenation of
(scalars, gates, gated). -/
def gateIrrepsIn (scalars gates gated : Irreps) : Irreps :=
  scalars ++ gates ++ gated

/-- Modelled from the spec: the gated-nonlinearity builder (`e3nn.nn.Gate`,
spec §4.4) declares its output representation as the concatenation of
(scalars, gated) — gates are consumed internally. -/
def gateIrrepsOut (scalars gated : Irreps) : Irreps :=
  scalars ++ gated

/-- Modelled from the spec: the interaction layer
(`graphite/nn/conv/e3nn_nequip_interaction.py`, not included in `src/`)
is consumed through its constructor contract (spec §4.5); it records the
representations it was constructed with. -/
structure InteractionSpec where
  irreps_in : Irreps
  irreps_node : Irreps
  irreps_edge : Irreps
  irreps_out : Irreps
deriving DecidableEq, Repr

/-- One composed (interaction, gate) layer, as assembled by
`E3NN_NequIP.__init__` lines 78–110. -/
structure ComposedLayer where
  conv : InteractionSpec
  irrepsScalars : Irreps
  irrepsGates : Irreps
  irrepsGated : Irreps
  gateIr : Option Irrep
  gateOut : Irreps
deriving DecidableEq, Repr

/-- One iteration of the `for _ in range(num_convs-1)` loop of
`E3NN_NequIP.__init__` (lines 80–110): partition the hidden representation,
resolve the gate parity, form the gate irreps
(`Irreps([(mul, ir) for mul, _ in irreps_gated]).simplify()`), and build the
interaction with `irreps_out = gate.irreps_in`. -/
def buildLayer (irrepsHidden irrepsNode irrepsEdge : Irreps) (irreps : Irreps) :
    Except BuildError ComposedLayer :=
  let s := scalarsPartition irrepsHidden irreps irrepsEdge
  let g := gatedPartition irrepsHidden irreps irrepsEdge
  match resolveGateIr irrepsNode irrepsEdge irreps g with
  | .error e => .error e
  | .ok gIr =>
    let gates : Irreps :=
      match gIr with
      | some ir => simplify (g.map fun mi => (mi.1, ir))
      | none => []
    .ok { conv := { irreps_in := irreps, irreps_node := irrepsNode,
                    irreps_edge := irrepsEdge,
                    irreps_out := gateIrrepsIn s gates g },
          irrepsScalars := s, irrepsGates := gates, irrepsGated := g,
          gateIr := gIr, gateOut := gateIrrepsOut s g }

/-- The assembled model: input representation, the composed
(interaction, gate) layers, and the final output-only interaction. -/
structure NequIPModel where
  irreps_in : Irreps
  layers : List ComposedLayer
  out : InteractionSpec
deriving DecidableEq, Repr

/-- The construction loop: build `n` composed layers, threading the evolving
representation (`irreps = gate.irreps_out`, line 109) forward; return the
layers and the final representation. -/
def buildLayers (irrepsHidden irrepsNode irrepsEdge : Irreps) :
    Nat → Irreps → Except BuildError (List ComposedLayer × Irreps)
  | 0, irreps => .ok ([], irreps)
  | n + 1, irreps =>
    match buildLayer irrepsHidden irrepsNode irrepsEdge irreps with
    | .error e => .error e
    | .ok layer =>
      match buildLayers irrepsHidden irrepsNode irrepsEdge n layer.gateOut with
      | .error e => .error e
      | .ok (rest, final) => .ok (layer :: rest, final)

/-- `E3NN_NequIP.__init__` (lines 63–119): build `num_convs - 1` composed
layers starting from `irreps_in`, then attach the final output-only
interaction with `irreps_in` equal to the threaded representation and
`irreps_out` equal to the model's output representation. -/
def buildModel (irrepsIn irrepsHidden irrepsOut irrepsNode irrepsEdge : Irreps)
    (numConvs : Nat) : Except BuildError NequIPModel :=
  match buildLayers irrepsHidden irrepsNode irrepsEdge (numConvs - 1) irrepsIn with
  | .error e => .error e
  | .ok (layers, final) =>
    .ok { irreps_in := irrepsIn, layers := layers,
          out := { irreps_in := final, irreps_node := irrepsNode,
                   irreps_edge := irrepsEdge, irreps_out := irrepsOut } }

/-- Basic shape facts of a successfully built layer. -/
lemma buildLayer_ok_shape {irrepsHidden irrepsNode irrepsEdge irreps : Irreps}
    {L : ComposedLayer}
    (h : buildLayer irrepsHidden irrepsNode irrepsEdge irreps = .ok L) :
    L.conv.irreps_in = irreps ∧
    L.irrepsScalars = scalarsPartition irrepsHidden irreps irrepsEdge ∧
    L.irrepsGated = gatedPartition irrepsHidden irreps irrepsEdge ∧
    L.conv.irreps_out = gateIrrepsIn L.irrepsScalars L.irrepsGates L.irrepsGated ∧
    L.gateOut = gateIrrepsOut L.irrepsScalars L.irrepsGated := by
  unfold buildLayer at h
  rcases hr : resolveGateIr irrepsNode irrepsEdge irreps
      (gatedPartition irrepsHidden irreps irrepsEdge) with e | gIr <;>
    simp only [hr] at h
  · cases h
  · cases h
    refine ⟨rfl, rfl, rfl, rfl, rfl⟩

/-- Swapping the two factors leaves the coupling set unchanged. -/
lemma irrepMul_comm_mem (ir1 ir2 t : Irrep) :
    t ∈ irrepMul ir1 ir2 ↔ t ∈ irrepMul ir2 ir1 := by
  simp only [mem_irrepMul]
  constructor <;> rintro ⟨hp, hge, hle⟩ <;>
    exact ⟨by rw [hp]; cases ir1.p <;> cases ir2.p <;> rfl, by omega, by omega⟩

/-- C4: `tp_path_exists(reps_a, reps_b, target)` returns true iff, after
simplifying both inputs, some pair of labels (one from each input) has the
target in its angular-momentum coupling set; it is a pure function, and
when either input is the empty representation set it returns false. -/
theorem tp_path_exists_spec (A B : Irreps) (t : Irrep) :
    (tp_path_exists A B t = true ↔
      ∃ mi1 ∈ simplify A, ∃ mi2 ∈ simplify B, t ∈ irrepMul mi1.2 mi2.2) ∧
    tp_path_exists [] B t = false ∧ tp_path_exists A [] t = false := by
  refine ⟨tp_path_exists_eq_true_iff A B t, ?_, ?_⟩ <;>
    simp [tp_path_exists, simplify_nil, List.any_eq_true]

/-- C9: path existence is symmetric in its two representation-set inputs:
`tp_path_exists(A, B, t) = tp_path_exists(B, A, t)`. -/
theorem tp_path_exists_symm (A B : Irreps) (t : Irrep) :
    tp_path_exists A B t = tp_path_exists B A t := by
  have h : tp_path_exists A B t = true ↔ tp_path_exists B A t = true := by
    rw [tp_path_exists_eq_true_iff, tp_path_exists_eq_true_iff]
    constructor <;> rintro ⟨m1, h1, m2, h2, hm⟩ <;>
      exact ⟨m2, h2, m1, h1, (irrepMul_comm_mem _ _ _).mp hm⟩
  cases hAB : tp_path_exists A B t <;> cases hBA : tp_path_exists B A t <;>
    simp_all

/-- C5: the scalars partition is exactly the degree-0 components of
`irreps_hidden` passing the path-existence check from (input, edge), the
gated partition exactly the degree>0 components passing it, and dropping
the failing components is silent: building the layer from `irreps_hidden`
gives the same result (in particular, no error) as building it from
`irreps_hidden` restricted to the passing components. -/
theorem partition_silent_drop (irrepsHidden irrepsNode irrepsEdge irreps : Irreps) :
    (∀ mi : Nat × Irrep,
      (mi ∈ scalarsPartition irrepsHidden irreps irrepsEdge ↔
        mi ∈ irrepsHidden ∧ mi.2.l = 0 ∧
          tp_path_exists irreps irrepsEdge mi.2 = true) ∧
      (mi ∈ gatedPartition irrepsHidden irreps irrepsEdge ↔
        mi ∈ irrepsHidden ∧ 0 < mi.2.l ∧
          tp_path_exists irreps irrepsEdge mi.2 = true)) ∧
    buildLayer irrepsHidden irrepsNode irrepsEdge irreps =
      buildLayer
        (irrepsHidden.filter fun mi => tp_path_exists irreps irrepsEdge mi.2)
        irrepsNode irrepsEdge irreps := by
  have hs : scalarsPartition
      (irrepsHidden.filter fun mi => tp_path_exists irreps irrepsEdge mi.2)
      irreps irrepsEdge = scalarsPartition irrepsHidden irreps irrepsEdge := by
    unfold scalarsPartition
    rw [List.filter_filter]
    exact List.filter_congr fun mi _ => by
      rw [Bool.and_assoc, Bool.and_self]
  have hg : gatedPartition
      (irrepsHidden.filter fun mi => tp_path_exists irreps irrepsEdge mi.2)
      irreps irrepsEdge = gatedPartition irrepsHidden irreps irrepsEdge := by
    unfold gatedPartition
    rw [List.filter_filter]
    exact List.filter_congr fun mi _ => by
      rw [Bool.and_assoc, Bool.and_self]
  refine ⟨fun mi => ⟨?_, ?_⟩, ?_⟩
  · simp [scalarsPartition, List.mem_filter, and_assoc]
  · simp [gatedPartition, List.mem_filter, and_assoc]
  · simp only [buildLayer, hs, hg]

/-- C1: for a non-final layer, when the realizable gated partition has
positive dimension the gate parity is resolved by first testing a path from
(node-attribute representation, edge representation) to `0e` (choosing
even), else testing `0o` (choosing odd), and when neither path exists the
construction fails with a configuration error carrying the unsatisfiable
representation combination; when the gated partition is empty (the data
model's multiplicities being positive), no parity is chosen and no error is
raised. -/
theorem gate_parity_resolution (irrepsHidden irrepsNode irrepsEdge irreps : Irreps)
    (_hpos : ∀ mi ∈ irrepsHidden, 0 < mi.1) :
    (irrepsDim (gatedPartition irrepsHidden irreps irrepsEdge) = 0 →
      ∃ L, buildLayer irrepsHidden irrepsNode irrepsEdge irreps = .ok L ∧
        L.gateIr = none) ∧
    (0 < irrepsDim (gatedPartition irrepsHidden irreps irrepsEdge) →
      (tp_path_exists irrepsNode irrepsEdge ir0e = true →
        ∃ L, buildLayer irrepsHidden irrepsNode irrepsEdge irreps = .ok L ∧
          L.gateIr = some ir0e) ∧
      (tp_path_exists irrepsNode irrepsEdge ir0e = false →
        tp_path_exists irrepsNode irrepsEdge ir0o = true →
          ∃ L, buildLayer irrepsHidden irrepsNode irrepsEdge irreps = .ok L ∧
            L.gateIr = some ir0o) ∧
      (tp_path_exists irrepsNode irrepsEdge ir0e = false →
        tp_path_exists irrepsNode irrepsEdge ir0o = false →
          buildLayer irrepsHidden irrepsNode irrepsEdge irreps =
            .error (.gateParity irreps irrepsEdge
              (gatedPartition irrepsHidden irreps irrepsEdge)))) := by
  constructor
  · intro h0
    simp only [buildLayer, resolveGateIr]
    rw [if_neg (by omega)]
    exact ⟨_, rfl, rfl⟩
  · intro hdim
    refine ⟨?_, ?_, ?_⟩
    · intro he
      simp only [buildLayer, resolveGateIr, if_pos hdim, he, if_true]
      exact ⟨_, rfl, rfl⟩
    · intro he ho
      simp only [buildLayer, resolveGateIr, if_pos hdim, he, ho,
        Bool.false_eq_true, if_false, if_true]
      exact ⟨_, rfl, rfl⟩
    · intro he ho
      simp only [buildLayer, resolveGateIr, if_pos hdim, he, ho,
        Bool.false_eq_true, if_false]

/-- Concrete instances of the gate-parity resolution: the repository's
default configuration resolves to even gates, and a configuration whose
node-attribute and edge representations couple to no scalar label fails
with the configuration error carrying those representations. -/
theorem gate_parity_resolution_witness :
    (∃ L, buildLayer [(128, ⟨0, true⟩), (16, ⟨1, true⟩)] [(1, ⟨0, true⟩)]
        [(1, ⟨0, true⟩), (1, ⟨1, true⟩), (1, ⟨2, true⟩)] [(64, ⟨0, true⟩)] =
          .ok L ∧ L.gateIr = some ir0e) ∧
    buildLayer [(16, ⟨1, true⟩)] [(1, ⟨0, true⟩)] [(1, ⟨1, true⟩)]
        [(1, ⟨1, true⟩)] =
      .error (.gateParity [(1, ⟨1, true⟩)] [(1, ⟨1, true⟩)]
        (gatedPartition [(16, ⟨1, true⟩)] [(1, ⟨1, true⟩)] [(1, ⟨1, true⟩)])) :=
  ⟨((gate_parity_resolution [(128, ⟨0, true⟩), (16, ⟨1, true⟩)] [(1, ⟨0, true⟩)]
        [(1, ⟨0, true⟩), (1, ⟨1, true⟩), (1, ⟨2, true⟩)] [(64, ⟨0, true⟩)]
        (by decide)).2 (by decide)).1 (by decide),
   ((gate_parity_resolution [(16, ⟨1, true⟩)] [(1, ⟨0, true⟩)]
        [(1, ⟨1, true⟩)] [(1, ⟨1, true⟩)]
        (by decide)).2 (by decide)).2.2 (by decide) (by decide)⟩

/-- The representation-threading invariant of the construction loop: each
layer's interaction consumes the representation produced so far, and the
final representation is the last gate output (or the start value). -/
def Chained : Irreps → List ComposedLayer → Irreps → Prop
  | irreps, [], final => final = irreps
  | irreps, L :: rest, final => L.conv.irreps_in = irreps ∧ Chained L.gateOut rest final

/-- A successful run of the construction loop satisfies the threading
invariant. -/
lemma buildLayers_chained {irrepsHidden irrepsNode irrepsEdge : Irreps} :
    ∀ {n : Nat} {irreps : Irreps} {layers : List ComposedLayer} {final : Irreps},
      buildLayers irrepsHidden irrepsNode irrepsEdge n irreps = .ok (layers, final) →
      Chained irreps layers final
  | 0, irreps, layers, final, h => by
    simp only [buildLayers] at h
    cases h
    rfl
  | n + 1, irreps, layers, final, h => by
    simp only [buildLayers] at h
    cases hb : buildLayer irrepsHidden irrepsNode irrepsEdge irreps with
    | error e => rw [hb] at h; simp at h
    | ok L =>
      rw [hb] at h
      dsimp only at h
      cases hr : buildLayers irrepsHidden irrepsNode irrepsEdge n L.gateOut with
      | error e => rw [hr] at h; simp at h
      | ok p =>
        obtain ⟨rest, fin⟩ := p
        rw [hr] at h
        dsimp only at h
        cases h
        exact ⟨(buildLayer_ok_shape hb).1, buildLayers_chained hr⟩

/-- The threading invariant yields the consecutive-pair equalities and the
value of the final representation. -/
lemma chained_get {final : Irreps} :
    ∀ {layers : List ComposedLayer} {irreps : Irreps}, Chained irreps layers final →
      (∀ k (hk : k + 1 < layers.length),
        (layers.get ⟨k, Nat.lt_of_succ_lt hk⟩).gateOut =
          (layers.get ⟨k + 1, hk⟩).conv.irreps_in) ∧
      final = (match layers.getLast? with
               | none => irreps
               | some L => L.gateOut)
  | [], irreps, h => by
    refine ⟨fun k hk => absurd hk (by simp), ?_⟩
    simpa using h
  | L :: rest, irreps, h => by
    obtain ⟨hIn, hc⟩ := h
    have IH := chained_get hc
    refine ⟨?_, ?_⟩
    · intro k hk
      match k with
      | 0 =>
        cases rest with
        | nil => simp at hk
        | cons R rs =>
          obtain ⟨hR, _⟩ := hc
          exact hR.symm
      | k' + 1 =>
        exact IH.1 k' (by simpa using hk)
    · cases rest with
      | nil => simpa using hc
      | cons R rs =>
        rw [List.getLast?_cons_cons]
        rcases hL : (R :: rs).getLast? with _ | X
        · simp [List.getLast?_eq_getLast] at hL
        · have h2 := IH.2
          rw [hL] at h2
          exact h2

/-- C2: for every successfully built model, consecutive composed layers
chain exactly — layer k's gate output representation equals the `irreps_in`
of layer k+1's interaction — and the final output-only interaction's
`irreps_in` equals the last gate's output representation (or the model's
input representation when there are no composed layers). -/
theorem layer_shape_chaining
    (irrepsIn irrepsHidden irrepsOut irrepsNode irrepsEdge : Irreps)
    (numConvs : Nat) (M : NequIPModel)
    (h : buildModel irrepsIn irrepsHidden irrepsOut irrepsNode irrepsEdge
          numConvs = .ok M) :
    (∀ k (hk : k + 1 < M.layers.length),
      (M.layers.get ⟨k, Nat.lt_of_succ_lt hk⟩).gateOut =
        (M.layers.get ⟨k + 1, hk⟩).conv.irreps_in) ∧
    M.out.irreps_in = (match M.layers.getLast? with
                       | none => irrepsIn
                       | some L => L.gateOut) := by
  unfold buildModel at h
  cases hr : buildLayers irrepsHidden irrepsNode irrepsEdge (numConvs - 1)
      irrepsIn with
  | error e => rw [hr] at h; simp at h
  | ok p =>
    obtain ⟨layers, final⟩ := p
    rw [hr] at h
    cases h
    have hc := chained_get (buildLayers_chained hr)
    exact ⟨hc.1, hc.2⟩

/-- Concrete instance of the chaining theorem: a two-layer model built from
scalar representations has its output interaction consume the single
composed layer's gate output. -/
theorem layer_shape_chaining_witness :
    ({ irreps_in := [(1, ⟨0, true⟩)],
       layers := [{ conv := { irreps_in := [(1, ⟨0, true⟩)],
                              irreps_node := [(1, ⟨0, true⟩)],
                              irreps_edge := [(1, ⟨0, true⟩)],
                              irreps_out := [(1, ⟨0, true⟩)] },
                    irrepsScalars := [(1, ⟨0, true⟩)],
                    irrepsGates := [], irrepsGated := [],
                    gateIr := none, gateOut := [(1, ⟨0, true⟩)] }],
       out := { irreps_in := [(1, ⟨0, true⟩)],
                irreps_node := [(1, ⟨0, true⟩)],
                irreps_edge := [(1, ⟨0, true⟩)],
                irreps_out := [(4, ⟨0, true⟩)] } } : NequIPModel).out.irreps_in =
      (match ({ irreps_in := [(1, ⟨0, true⟩)],
                layers := [{ conv := { irreps_in := [(1, ⟨0, true⟩)],
                                       irreps_node := [(1, ⟨0, true⟩)],
                                       irreps_edge := [(1, ⟨0, true⟩)],
                                       irreps_out := [(1, ⟨0, true⟩)] },
                             irrepsScalars := [(1, ⟨0, true⟩)],
                             irrepsGates := [], irrepsGated := [],
                             gateIr := none, gateOut := [(1, ⟨0, true⟩)] }],
                out := { irreps_in := [(1, ⟨0, true⟩)],
                         irreps_node := [(1, ⟨0, true⟩)],
                         irreps_edge := [(1, ⟨0, true⟩)],
                         irreps_out := [(4, ⟨0, true⟩)] } } : NequIPModel).layers.getLast? with
       | none => [(1, ⟨0, true⟩)]
       | some L => L.gateOut) :=
  (layer_shape_chaining [(1, ⟨0, true⟩)] [(1, ⟨0, true⟩)] [(4, ⟨0, true⟩)]
    [(1, ⟨0, true⟩)] [(1, ⟨0, true⟩)] 2 _ (by rfl)).2

/-- Every layer produced by the construction loop was given
`irreps_out = gate.irreps_in`. -/
lemma buildLayers_mem_shape {irrepsHidden irrepsNode irrepsEdge : Irreps} :
    ∀ {n : Nat} {irreps : Irreps} {layers : List ComposedLayer} {final : Irreps},
      buildLayers irrepsHidden irrepsNode irrepsEdge n irreps = .ok (layers, final) →
      ∀ L ∈ layers,
        L.conv.irreps_out = gateIrrepsIn L.irrepsScalars L.irrepsGates L.irrepsGated
  | 0, irreps, layers, final, h => by
    simp only [buildLayers] at h
    cases h
    intro L hL
    simp at hL
  | n + 1, irreps, layers, final, h => by
    simp only [buildLayers] at h
    cases hb : buildLayer irrepsHidden irrepsNode irrepsEdge irreps with
    | error e => rw [hb] at h; simp at h
    | ok L =>
      rw [hb] at h
      dsimp only at h
      cases hr : buildLayers irrepsHidden irrepsNode irrepsEdge n L.gateOut with
      | error e => rw [hr] at h; simp at h
      | ok p =>
        obtain ⟨rest, fin⟩ := p
        rw [hr] at h
        dsimp only at h
        cases h
        intro L' hL'
        rcases List.mem_cons.mp hL' with hL' | hL'
        · cases hL'
          exact (buildLayer_ok_shape hb).2.2.2.1
        · exact buildLayers_mem_shape hr L' hL'

/-- C6: every composed layer of a successfully built model has its
interaction constructed with `irreps_out` equal to the required-input
representation of that layer's gate nonlinearity — the concatenation of
the (scalars, gates, gated) partitions — never the raw hidden
representation. -/
theorem conv_out_is_gate_in
    (irrepsIn irrepsHidden irrepsOut irrepsNode irrepsEdge : Irreps)
    (numConvs : Nat) (M : NequIPModel)
    (h : buildModel irrepsIn irrepsHidden irrepsOut irrepsNode irrepsEdge
          numConvs = .ok M) :
    ∀ L ∈ M.layers,
      L.conv.irreps_out = gateIrrepsIn L.irrepsScalars L.irrepsGates L.irrepsGated ∧
      L.conv.irreps_out = L.irrepsScalars ++ L.irrepsGates ++ L.irrepsGated := by
  unfold buildModel at h
  cases hr : buildLayers irrepsHidden irrepsNode irrepsEdge (numConvs - 1)
      irrepsIn with
  | error e => rw [hr] at h; simp at h
  | ok p =>
    obtain ⟨layers, final⟩ := p
    rw [hr] at h
    cases h
    intro L hL
    exact ⟨buildLayers_mem_shape hr L hL, buildLayers_mem_shape hr L hL⟩

/-- Concrete instance: in the model built from the repository defaults
(with two interaction layers), the composed layer's interaction was
constructed with `irreps_out = 128x0e + 16x0e + 16x1e`, the gate's
required-input representation, not the raw hidden `128x0e + 16x1e`. -/
theorem conv_out_is_gate_in_witness :
    ({ conv := { irreps_in := [(64, ⟨0, true⟩)],
                 irreps_node := [(1, ⟨0, true⟩)],
                 irreps_edge := [(1, ⟨0, true⟩), (1, ⟨1, true⟩), (1, ⟨2, true⟩)],
                 irreps_out := [(128, ⟨0, true⟩), (16, ⟨0, true⟩), (16, ⟨1, true⟩)] },
       irrepsScalars := [(128, ⟨0, true⟩)],
       irrepsGates := [(16, ⟨0, true⟩)],
       irrepsGated := [(16, ⟨1, true⟩)],
       gateIr := some ir0e,
       gateOut := [(128, ⟨0, true⟩), (16, ⟨1, true⟩)] } : ComposedLayer).conv.irreps_out =
      gateIrrepsIn [(128, ⟨0, true⟩)] [(16, ⟨0, true⟩)] [(16, ⟨1, true⟩)] :=
  (conv_out_is_gate_in [(64, ⟨0, true⟩)] [(128, ⟨0, true⟩), (16, ⟨1, true⟩)]
    [(4, ⟨0, true⟩)] [(1, ⟨0, true⟩)]
    [(1, ⟨0, true⟩), (1, ⟨1, true⟩), (1, ⟨2, true⟩)] 2
    { irreps_in := [(64, ⟨0, true⟩)],
      layers := [{ conv := { irreps_in := [(64, ⟨0, true⟩)],
                             irreps_node := [(1, ⟨0, true⟩)],
                             irreps_edge := [(1, ⟨0, true⟩), (1, ⟨1, true⟩), (1, ⟨2, true⟩)],
                             irreps_out := [(128, ⟨0, true⟩), (16, ⟨0, true⟩), (16, ⟨1, true⟩)] },
                   irrepsScalars := [(128, ⟨0, true⟩)],
                   irrepsGates := [(16, ⟨0, true⟩)],
                   irrepsGated := [(16, ⟨1, true⟩)],
                   gateIr := some ir0e,
                   gateOut := [(128, ⟨0, true⟩), (16, ⟨1, true⟩)] }],
      out := { irreps_in := [(128, ⟨0, true⟩), (16, ⟨1, true⟩)],
               irreps_node := [(1, ⟨0, true⟩)],
               irreps_edge := [(1, ⟨0, true⟩), (1, ⟨1, true⟩), (1, ⟨2, true⟩)],
               irreps_out := [(4, ⟨0, true⟩)] } }
    (by rfl) _ (List.mem_singleton.mpr rfl)).1

/-! ## The `z`-selection in `E3NN_NequIP.forward` -/

/-- The node-attribute selection of `E3NN_NequIP.forward`
(`e3nn_nequip.py` lines 122–124 together with the uses at lines 139–141):
the body reads `if 'z' not in data: z = x.new_ones((x.shape[0], 1))` and
then passes `z` to every layer.  When the graph record has no `z` entry the
local `z` is a per-node column of ones; when a `z` entry is present the
conditional is skipped, the local `z` is never assigned, and the first use
of `z` raises `UnboundLocalError` — the provided weighting is never read. -/
def forwardNodeAttr (numNodes : Nat) : Option (List ℚ) → Except String (List ℚ)
  | none => .ok (List.replicate numNodes 1)
  | some _ => .error "UnboundLocalError: local variable z referenced before assignment"

/-- C3 (code bug): with no `z` entry the node attributes default to a
per-node column of uniform ones, as claimed; but with a `z` entry present
the forward pass fails with an unbound-local error instead of using the
provided weighting, contradicting the claim. -/
theorem forward_z_selection_bug :
    forwardNodeAttr 2 none = .ok [1, 1] ∧
    forwardNodeAttr 2 (some [2, 3]) =
      .error "UnboundLocalError: local variable z referenced before assignment" :=
  ⟨rfl, rfl⟩

/-! ## `steinhardt` (src/graphite/nn/order.py) -/

/-- `torch_scatter.scatter(src, idx, dim=0, reduce='mean')`: per-group mean
of the source rows; a group receiving no contribution yields `0`. -/
def scatterMean {E n d : Nat} (src : Fin E → Fin d → ℚ) (idx : Fin E → Fin n) :
    Fin n → Fin d → ℚ :=
  fun v m =>
    let grp := Finset.univ.filter fun e => idx e = v
    if grp.card = 0 then 0 else (∑ e ∈ grp, src e m) / grp.card

/-- `steinhardt` lines 13–21: the per-edge spherical-harmonic projections
(the external `o3.spherical_harmonics` of the edge vectors, entering as the
parameter `sh`) are scatter-averaged over the destination nodes `j`, and,
when second-shell averaging is requested, re-averaged one further hop over
the same connectivity (`scatter(q_lm[i], j, reduce='mean')`). -/
def steinhardtQlm (l : Nat) {E n : Nat} (i j : Fin E → Fin n)
    (sh : Fin E → Fin (2 * l + 1) → ℚ) (secondShellAvg : Bool) :
    Fin n → Fin (2 * l + 1) → ℚ :=
  let q0 := scatterMean sh j
  if secondShellAvg then scatterMean (fun e => q0 (i e)) j else q0

/-- `q_lm.abs().pow(2).sum(1)` (`order.py` line 23): per-node sum of the
squared magnitudes of the `q_lm` components. -/
def steinhardtSquareSum (l : Nat) {E n : Nat} (i j : Fin E → Fin n)
    (sh : Fin E → Fin (2 * l + 1) → ℚ) (ssa : Bool) : Fin n → ℚ :=
  fun v => ∑ m, steinhardtQlm l i j sh ssa v m ^ 2

/-- C7: the returned per-node `q` is
`sqrt(4π/(2·degree+1) · Σ_m |q_lm|²)` applied to the aggregated `q_lm`;
its argument is nonnegative, so squaring the result recovers the argument
and `q ≥ 0` for every node where it is defined. -/
theorem steinhardt_q_nonneg (l : Nat) {E n : Nat} (i j : Fin E → Fin n)
    (sh : Fin E → Fin (2 * l + 1) → ℚ) (ssa : Bool) (v : Fin n) :
    0 ≤ 4 * Real.pi / (2 * (l : ℝ) + 1) * (steinhardtSquareSum l i j sh ssa v : ℝ) ∧
    Real.sqrt (4 * Real.pi / (2 * (l : ℝ) + 1) *
        (steinhardtSquareSum l i j sh ssa v : ℝ)) ^ 2 =
      4 * Real.pi / (2 * (l : ℝ) + 1) * (steinhardtSquareSum l i j sh ssa v : ℝ) ∧
    0 ≤ Real.sqrt (4 * Real.pi / (2 * (l : ℝ) + 1) *
        (steinhardtSquareSum l i j sh ssa v : ℝ)) := by
  have hq : (0 : ℚ) ≤ steinhardtSquareSum l i j sh ssa v := by
    unfold steinhardtSquareSum
    exact Finset.sum_nonneg fun m _ => sq_nonneg _
  have hss : (0 : ℝ) ≤ (steinhardtSquareSum l i j sh ssa v : ℝ) := by
    exact_mod_cast hq
  have hc : (0 : ℝ) ≤ 4 * Real.pi / (2 * (l : ℝ) + 1) := by positivity
  have h1 := mul_nonneg hc hss
  exact ⟨h1, Real.sq_sqrt h1, Real.sqrt_nonneg _⟩

/-- C8: the denominator of `w` — the 3/2 power of the squared-magnitude
sum — is exactly zero for a node whose aggregated `q_lm` vector vanishes
(the division is a division by zero, and the Wigner contraction in the
numerator vanishes too, so no exception path exists), while for a node
with some nonzero `q_lm` component the denominator is positive, so `w`
equals the Wigner contraction divided by a nonzero quantity. -/
theorem steinhardt_w_division (l : Nat) {E n : Nat} (i j : Fin E → Fin n)
    (sh : Fin E → Fin (2 * l + 1) → ℚ) (ssa : Bool) (v : Fin n)
    (W : Fin (2 * l + 1) → Fin (2 * l + 1) → Fin (2 * l + 1) → ℝ) :
    ((∀ m, steinhardtQlm l i j sh ssa v m = 0) →
      steinhardtSquareSum l i j sh ssa v = 0 ∧
      (steinhardtSquareSum l i j sh ssa v : ℝ) ^ ((3 : ℝ) / 2) = 0 ∧
      (∑ a, ∑ b, ∑ c, (steinhardtQlm l i j sh ssa v a : ℝ) *
          (steinhardtQlm l i j sh ssa v b : ℝ) *
          (steinhardtQlm l i j sh ssa v c : ℝ) * W a b c) = 0) ∧
    ((∃ m, steinhardtQlm l i j sh ssa v m ≠ 0) →
      0 < (steinhardtSquareSum l i j sh ssa v : ℝ) ∧
      (steinhardtSquareSum l i j sh ssa v : ℝ) ^ ((3 : ℝ) / 2) ≠ 0) := by
  constructor
  · intro hz
    have hs : steinhardtSquareSum l i j sh ssa v = 0 := by
      unfold steinhardtSquareSum
      simp [hz]
    refine ⟨hs, ?_, ?_⟩
    · rw [hs]
      push_cast
      exact Real.zero_rpow (by norm_num)
    · simp [hz]
  · rintro ⟨m, hm⟩
    have hq : (0 : ℚ) < steinhardtSquareSum l i j sh ssa v := by
      unfold steinhardtSquareSum
      refine Finset.sum_pos' (fun m' _ => sq_nonneg _) ⟨m, Finset.mem_univ m, ?_⟩
      exact lt_of_le_of_ne (sq_nonneg _) (Ne.symm (pow_ne_zero 2 hm))
    have hpos : (0 : ℝ) < (steinhardtSquareSum l i j sh ssa v : ℝ) := by
      exact_mod_cast hq
    exact ⟨hpos, (Real.rpow_pos_of_pos hpos _).ne'⟩

/-- Concrete instances of the `w` denominator analysis: on a one-node,
one-edge graph with vanishing projections the squared-magnitude sum is
zero (the `w` division is a division by zero), and with unit projections
it is positive. -/
theorem steinhardt_w_division_witness :
    steinhardtSquareSum 0 (fun _ : Fin 1 => (0 : Fin 1)) (fun _ => 0)
        (fun _ _ => (0 : ℚ)) false 0 = 0 ∧
    0 < (steinhardtSquareSum 0 (fun _ : Fin 1 => (0 : Fin 1)) (fun _ => 0)
        (fun _ _ => (1 : ℚ)) false 0 : ℝ) :=
  ⟨((steinhardt_w_division 0 (fun _ => 0) (fun _ => 0) (fun _ _ => 0) false 0
      (fun _ _ _ => 0)).1 (by intro m; simp [steinhardtQlm, scatterMean])).1,
   ((steinhardt_w_division 0 (fun _ => 0) (fun _ => 0) (fun _ _ => 1) false 0
      (fun _ _ _ => 0)).2
      ⟨0, by norm_num [steinhardtQlm, scatterMean]⟩).1⟩

/-! ## MeshGraphNets convolution (src/src/graphite/nn/conv/mgn_conv.py) -/

/-- `EdgeProcessor.forward` (lines 24–28): concatenate `(x_i, x_j,
edge_attr)`, apply the edge MLP (the learned `Sequential(MLP, LayerNorm)`
enters as a parameter), and add the residual `edge_attr`. -/
def edgeProcessorForward {dn de : Nat}
    (edgeMLP : (Fin (dn + dn + de) → ℚ) → Fin de → ℚ)
    (x_i x_j : Fin dn → ℚ) (edge_attr : Fin de → ℚ) : Fin de → ℚ :=
  fun m => edgeMLP (Fin.append (Fin.append x_i x_j) edge_attr) m + edge_attr m

/-- `torch_geometric.utils.scatter(src, index, dim=0, dim_size)` with the
default sum reduction, as used by `NodeProcessor.forward` line 43. -/
def scatterSum {E n d : Nat} (idx : Fin E → Fin n) (src : Fin E → Fin d → ℚ) :
    Fin n → Fin d → ℚ :=
  fun v m => ∑ e ∈ Finset.univ.filter (fun e => idx e = v), src e m

/-- `NodeProcessor.forward` (lines 41–47): aggregate the edge features by
the first edge-index row with `dim_size = x.size(0)`, concatenate with
`x`, apply the node MLP, and add the residual `x`. -/
def nodeProcessorForward {n E dn de : Nat}
    (nodeMLP : (Fin (dn + de) → ℚ) → Fin dn → ℚ)
    (x : Fin n → Fin dn → ℚ) (i : Fin E → Fin n)
    (edge_attr : Fin E → Fin de → ℚ) : Fin n → Fin dn → ℚ :=
  fun v m => nodeMLP (Fin.append (x v) (scatterSum i edge_attr v)) m + x v m

/-- `MeshGraphNetsConv.forward` (lines 58–62): update the edge features
with the edge processor on `(x[i], x[j], edge_attr)`, then the node
features with the node processor on the updated edge features; return
both. -/
def mgnConvForward {n E dn de : Nat}
    (edgeMLP : (Fin (dn + dn + de) → ℚ) → Fin de → ℚ)
    (nodeMLP : (Fin (dn + de) → ℚ) → Fin dn → ℚ)
    (x : Fin n → Fin dn → ℚ) (i j : Fin E → Fin n)
    (edge_attr : Fin E → Fin de → ℚ) :
    (Fin n → Fin dn → ℚ) × (Fin E → Fin de → ℚ) :=
  let updated := fun e =>
    edgeProcessorForward edgeMLP (x (i e)) (x (j e)) (edge_attr e)
  (nodeProcessorForward nodeMLP x i updated, updated)

/-- C10: `MeshGraphNetsConv.forward` returns edge features equal to the
original `edge_attr` plus the edge-MLP output on `(x_i, x_j, edge_attr)`,
and node features equal to the original `x` plus the node-MLP output on
the concatenation of `x` with the sum-aggregation (by the first edge-index
row, over all `n` nodes) of the updated edge features; row counts and the
feature dimensions `node_dim`/`edge_dim` are preserved by type. -/
theorem mgn_conv_forward_spec {n E dn de : Nat}
    (edgeMLP : (Fin (dn + dn + de) → ℚ) → Fin de → ℚ)
    (nodeMLP : (Fin (dn + de) → ℚ) → Fin dn → ℚ)
    (x : Fin n → Fin dn → ℚ) (i j : Fin E → Fin n)
    (edge_attr : Fin E → Fin de → ℚ) :
    (∀ e m, (mgnConvForward edgeMLP nodeMLP x i j edge_attr).2 e m =
      edge_attr e m +
        edgeMLP (Fin.append (Fin.append (x (i e)) (x (j e))) (edge_attr e)) m) ∧
    (∀ v m, (mgnConvForward edgeMLP nodeMLP x i j edge_attr).1 v m =
      x v m + nodeMLP (Fin.append (x v)
        (scatterSum i (mgnConvForward edgeMLP nodeMLP x i j edge_attr).2 v)) m) := by
  constructor
  · intro e m
    simp [mgnConvForward, edgeProcessorForward, add_comm]
  · intro v m
    simp [mgnConvForward, nodeProcessorForward, add_comm]

end Graphite
